import Mathlib

/-!
Shallow embedding of the conversational companion client
(`src/hooks/useLiveSession.ts`, `src/services/geminiService.ts`,
`src/types.ts`).  JavaScript numbers are modelled as rationals,
nullable / optional values as `Option`, and JavaScript truthiness
is made explicit where the source relies on it.
-/

/-- `TranscriptEntry.speaker` from `src/types.ts`. -/
inductive Speaker
  | user
  | mary
deriving DecidableEq, Repr

/-- `GroundingSource.type` from `src/types.ts`. -/
inductive SourceType
  | search
  | maps
  | review
deriving DecidableEq, Repr

/-- `GroundingSource` from `src/types.ts`. -/
structure GroundingSource where
  uri : String
  title : String
  type : SourceType
deriving DecidableEq, Repr

/-- `TranscriptEntry.feedback` values from `src/types.ts`. -/
inductive Feedback
  | up
  | down
deriving DecidableEq, Repr

/-- `TranscriptEntry` from `src/types.ts`.  The optional `feedback`
(`'up' | 'down' | null`, possibly absent) and the optional `sources`
are modelled with `Option`, `none` standing for both `undefined` and
`null`. -/
structure TranscriptEntry where
  speaker : Speaker
  text : String
  isFinal : Bool
  id : Nat
  feedback : Option Feedback
  sources : Option (List GroundingSource)
deriving DecidableEq, Repr

/-- `getTraitLevel` return values in `src/services/geminiService.ts`. -/
inductive TraitLevel
  | bajo
  | medio
  | alto
deriving DecidableEq, Repr

/-- `getTraitLevel` from `src/services/geminiService.ts`:
`value <= 3` gives `bajo`, otherwise `value <= 7` gives `medio`,
otherwise `alto`. -/
def getTraitLevel (value : ℚ) : TraitLevel :=
  if value ≤ 3 then TraitLevel.bajo
  else if value ≤ 7 then TraitLevel.medio
  else TraitLevel.alto

/-- `handleFeedback` from `src/hooks/useLiveSession.ts`: maps over the
transcripts, replacing the matching entry by a copy with the new
feedback value. -/
def handleFeedback (id : Nat) (feedback : Feedback)
    (transcripts : List TranscriptEntry) : List TranscriptEntry :=
  transcripts.map (fun entry =>
    if entry.id = id then { entry with feedback := some feedback } else entry)

/-- Truncation toward zero of a rational, as the JavaScript `ToInt16`
conversion applied by an `Int16Array` element store does to an
already-in-range value. -/
def ratTrunc (q : ℚ) : Int :=
  if 0 ≤ q then ⌊q⌋ else ⌈q⌉

/-- One sample of `createPcmBlob` in `src/hooks/useLiveSession.ts`:
`int16[i] = Math.max(-32768, Math.min(32767, data[i] * 32768))`,
stored into an `Int16Array` (which truncates toward zero). -/
def pcmSample (x : ℚ) : Int :=
  ratTrunc (max (-32768) (min 32767 (x * 32768)))

/-- The `Blob` value returned by `createPcmBlob`; `data` holds the
16-bit samples (the base64 encoding of the byte buffer is not
modelled). -/
structure PcmBlob where
  data : List Int
  mimeType : String
deriving DecidableEq, Repr

/-- `createPcmBlob` from `src/hooks/useLiveSession.ts`. -/
def createPcmBlob (data : List ℚ) (sampleRate : Nat) : PcmBlob :=
  { data := data.map pcmSample,
    mimeType := "audio/pcm;rate=" ++ toString sampleRate }

/-- The `web` field of a grounding chunk (`chunk.web.uri`,
`chunk.web.title`); the title is optional. -/
structure WebInfo where
  uri : String
  title : Option String
deriving DecidableEq, Repr

/-- The value of `snippet.review`: the source comments note it can be a
string, an object, or null.  `objVal` carries the optional `uri`
property (`none` when the property is absent) and the optional `text`
property. -/
inductive ReviewVal
  | nullVal
  | strVal (s : String)
  | objVal (uri : Option String) (text : Option String)
deriving DecidableEq, Repr

/-- One element of `placeAnswerSources.reviewSnippets`. -/
structure ReviewSnippet where
  review : ReviewVal
deriving DecidableEq, Repr

/-- `chunk.maps.placeAnswerSources`, with its optional
`reviewSnippets` array. -/
structure PlaceAnswerSources where
  reviewSnippets : Option (List ReviewSnippet)
deriving DecidableEq, Repr

/-- The `maps` field of a grounding chunk. -/
structure MapsInfo where
  uri : String
  title : Option String
  placeAnswerSources : Option PlaceAnswerSources
deriving DecidableEq, Repr

/-- A grounding chunk: the source tests `chunk.web` first and
`chunk.maps` only in the `else` branch. -/
structure GroundingChunk where
  web : Option WebInfo
  maps : Option MapsInfo
deriving DecidableEq, Repr

/-- `serverContent.groundingMetadata` with its optional
`groundingChunks` array. -/
structure GroundingMetadata where
  groundingChunks : Option (List GroundingChunk)
deriving DecidableEq, Repr

/-- JavaScript `a || b` for an optional string `a`: both `undefined`
and the empty string are falsy, so they yield the fallback. -/
def jsOrString : Option String → String → String
  | none, fallback => fallback
  | some s, fallback => if s = "" then fallback else s

/-- The snippet list iterated by
`chunk.maps.placeAnswerSources?.reviewSnippets?.forEach`: the optional
chaining makes a missing `placeAnswerSources` or `reviewSnippets`
behave as an empty iteration. -/
def snippetsOf (m : MapsInfo) : List ReviewSnippet :=
  match m.placeAnswerSources with
  | none => []
  | some pas =>
    match pas.reviewSnippets with
    | none => []
    | some l => l

/-- The body of the `reviewSnippets?.forEach` callback: a snippet
whose review is a non-null object with a `uri` property pushes a
`review` source; every other snippet pushes nothing. -/
def pushReviewSource (fallbackTitle : String) (a : List GroundingSource)
    (s : ReviewSnippet) : List GroundingSource :=
  match s.review with
  | ReviewVal.objVal (some u) t =>
      a ++ [{ uri := u, title := jsOrString t fallbackTitle,
              type := SourceType.review }]
  | _ => a

/-- The body of the `for (const chunk of groundingChunks)` loop in
`handleServerMessage` / `sendChatMessage`: pushes a `search` source
for a web chunk, otherwise a `maps` source plus one `review` source
per snippet whose review is a non-null object with a `uri` property.
`fallbackTitle` is the literal used when the review has no text. -/
def pushChunkSources (fallbackTitle : String) (acc : List GroundingSource)
    (chunk : GroundingChunk) : List GroundingSource :=
  match chunk.web with
  | some w =>
      acc ++ [{ uri := w.uri, title := jsOrString w.title w.uri,
                type := SourceType.search }]
  | none =>
    match chunk.maps with
    | some m =>
        let acc1 := acc ++ [{ uri := m.uri, title := jsOrString m.title m.uri,
                              type := SourceType.maps }]
        (snippetsOf m).foldl (pushReviewSource fallbackTitle) acc1
    | none => acc

/-- The whole grounding-source extraction loop, starting from the
empty `sources` array. -/
def extractGroundingSources (fallbackTitle : String)
    (chunks : List GroundingChunk) : List GroundingSource :=
  chunks.foldl (pushChunkSources fallbackTitle) []

/-- The review-title fallback literal in `src/hooks/useLiveSession.ts`. -/
def liveReviewFallback : String := "Leer reseÃ±a"

/-- The review-title fallback literal in `src/services/geminiService.ts`. -/
def chatReviewFallback : String := "Leer reseña"

/-- Specification-side description of one snippet's contribution:
`some` review source exactly for a non-null object review with a
`uri` property. -/
def reviewSource? (fallbackTitle : String) (s : ReviewSnippet) :
    Option GroundingSource :=
  match s.review with
  | ReviewVal.objVal (some u) t =>
      some { uri := u, title := jsOrString t fallbackTitle,
             type := SourceType.review }
  | _ => none

/-- Specification-side per-chunk description of the extraction loop,
used to state what the accumulator loop computes. -/
def chunkSources (fallbackTitle : String) (chunk : GroundingChunk) :
    List GroundingSource :=
  match chunk.web with
  | some w =>
      [{ uri := w.uri, title := jsOrString w.title w.uri,
         type := SourceType.search }]
  | none =>
    match chunk.maps with
    | some m =>
        { uri := m.uri, title := jsOrString m.title m.uri,
          type := SourceType.maps } ::
          (snippetsOf m).filterMap (reviewSource? fallbackTitle)
    | none => []

/-- The transcript-related mutable state of `useLiveSession`:
`transcripts` (React state) together with the four refs
`currentInputTranscriptionRef`, `currentOutputTranscriptionRef`,
`currentUserTranscriptIdRef` and `currentMaryTranscriptIdRef`. -/
structure SessionState where
  transcripts : List TranscriptEntry
  currentInputTranscription : String
  currentOutputTranscription : String
  currentUserTranscriptId : Option Nat
  currentMaryTranscriptId : Option Nat
deriving DecidableEq, Repr

/-- JavaScript falsiness of a `number | null` ref: `null` and `0` are
falsy (`if (!ref.current)` and `if (ref.current)` in the source). -/
def jsFalsyId : Option Nat → Bool
  | none => true
  | some n => n == 0

/-- The `serverContent.inputTranscription` branch of
`handleServerMessage`: append the delta to the accumulator; if the
current user transcript id is falsy, set it to `Date.now()` (the
`now` argument) and append a fresh non-final entry, otherwise rewrite
the text of every entry whose id equals the current id. -/
def processInputTranscription (now : Nat) (text : String)
    (st : SessionState) : SessionState :=
  let acc := st.currentInputTranscription ++ text
  if jsFalsyId st.currentUserTranscriptId then
    { st with
      currentInputTranscription := acc,
      currentUserTranscriptId := some now,
      transcripts := st.transcripts ++
        [{ speaker := Speaker.user, text := acc, isFinal := false,
           id := now, feedback := none, sources := none }] }
  else
    { st with
      currentInputTranscription := acc,
      transcripts := st.transcripts.map (fun t =>
        if some t.id = st.currentUserTranscriptId then { t with text := acc }
        else t) }

/-- The `serverContent.outputTranscription` branch of
`handleServerMessage`, identical in shape with the `mary` speaker and
the output accumulator/id refs. -/
def processOutputTranscription (now : Nat) (text : String)
    (st : SessionState) : SessionState :=
  let acc := st.currentOutputTranscription ++ text
  if jsFalsyId st.currentMaryTranscriptId then
    { st with
      currentOutputTranscription := acc,
      currentMaryTranscriptId := some now,
      transcripts := st.transcripts ++
        [{ speaker := Speaker.mary, text := acc, isFinal := false,
           id := now, feedback := none, sources := none }] }
  else
    { st with
      currentOutputTranscription := acc,
      transcripts := st.transcripts.map (fun t =>
        if some t.id = st.currentMaryTranscriptId then { t with text := acc }
        else t) }

/-- The chunk list reached through
`message.serverContent.groundingMetadata?.groundingChunks`; a missing
metadata object or chunk array yields the empty list (the loop body
never runs). -/
def metadataChunks : Option GroundingMetadata → List GroundingChunk
  | none => []
  | some g =>
    match g.groundingChunks with
    | none => []
    | some cs => cs

/-- The `serverContent.turnComplete` branch of `handleServerMessage`:
extract the grounding sources, finalise the in-progress user entry
(text from the input accumulator) and mary entry (text from the
output accumulator, attaching the sources only when non-empty), then
reset both accumulators and both id refs. -/
def processTurnComplete (gm : Option GroundingMetadata)
    (st : SessionState) : SessionState :=
  let sources := extractGroundingSources liveReviewFallback (metadataChunks gm)
  let st1 :=
    if jsFalsyId st.currentUserTranscriptId then st
    else
      { st with transcripts := st.transcripts.map (fun t =>
          if some t.id = st.currentUserTranscriptId then
            { t with text := st.currentInputTranscription, isFinal := true }
          else t) }
  let attached := if sources.length > 0 then some sources else none
  let st2 :=
    if jsFalsyId st1.currentMaryTranscriptId then st1
    else
      { st1 with transcripts := st1.transcripts.map (fun t =>
          if some t.id = st1.currentMaryTranscriptId then
            { t with text := st1.currentOutputTranscription,
                     isFinal := true, sources := attached }
          else t) }
  { st2 with
    currentInputTranscription := "",
    currentOutputTranscription := "",
    currentUserTranscriptId := none,
    currentMaryTranscriptId := none }

/-- The audio playback state of `useLiveSession`:
`nextAudioStartTimeRef` and the set `audioSourcesRef` of queued
source nodes (identified by numbers). -/
structure AudioPlaybackState where
  nextAudioStartTime : ℚ
  audioSources : List Nat
deriving DecidableEq, Repr

/-- One incoming audio chunk as seen by the model-turn branch of
`handleServerMessage`: the audio context's `currentTime` when it is
processed and the decoded buffer's `duration`. -/
structure AudioChunk where
  currentTime : ℚ
  duration : ℚ
deriving DecidableEq, Repr

/-- The model-turn audio branch of `handleServerMessage`:
`nextAudioStartTime = max(nextAudioStartTime, currentTime)`, the
source is started at that time, and `nextAudioStartTime` then
advances by the buffer's duration; the source node joins the queued
set.  Returns the scheduled start time with the new state. -/
def scheduleAudioChunk (currentTime duration : ℚ) (srcId : Nat)
    (st : AudioPlaybackState) : ℚ × AudioPlaybackState :=
  let t0 := max st.nextAudioStartTime currentTime
  (t0, { nextAudioStartTime := t0 + duration,
         audioSources := st.audioSources ++ [srcId] })

/-- The scheduled start times of a sequence of audio chunks, threading
`nextAudioStartTime` through the model-turn branch chunk by chunk. -/
def audioStartTimes : ℚ → List AudioChunk → List ℚ
  | _, [] => []
  | next, c :: rest =>
    let s := max next c.currentTime
    s :: audioStartTimes (s + c.duration) rest

/-- The value of `nextAudioStartTime` after processing a list of
chunks from the given initial value. -/
def nextTimeAfter (init : ℚ) (chunks : List AudioChunk) : ℚ :=
  chunks.foldl (fun next c => max next c.currentTime + c.duration) init

/-- The `serverContent.interrupted` branch of `handleServerMessage`:
`stop()` is called on every queued source, the set is cleared and
`nextAudioStartTime` is reset to `0`.  The first component lists the
sources that were stopped. -/
def processInterrupted (st : AudioPlaybackState) :
    List Nat × AudioPlaybackState :=
  (st.audioSources, { nextAudioStartTime := 0, audioSources := [] })

/-- The connection-level state of `useLiveSession`: the `status`
string state and whether `sessionPromiseRef.current` is non-null. -/
structure ConnectionState where
  status : String
  hasSession : Bool
deriving DecidableEq, Repr

/-- The connection-level events of `useLiveSession`: a call to
`connect`, the `onopen` callback, the `onerror` callback, the
`onclose` callback, and the `catch` branch of `connect` on a
connection failure. -/
inductive SessionEvent
  | connectCall
  | openEvent
  | errorEvent
  | closeEvent
  | connectFailure
deriving DecidableEq, Repr

/-- Connection-level step function of `useLiveSession`.  `connect`
returns immediately when `status !== 'idle' || sessionPromiseRef.current`;
otherwise it sets the status to `'connecting'` and stores the session
promise.  `onopen` sets `'connected'`; `onerror` and the `catch`
branch set `'error'` and run `cleanup` (which nulls the session ref);
`onclose` sets `'disconnected'` and runs `cleanup`. -/
def stepSession : ConnectionState → SessionEvent → ConnectionState
  | st, SessionEvent.connectCall =>
      if st.status ≠ "idle" ∨ st.hasSession = true then st
      else { status := "connecting", hasSession := true }
  | st, SessionEvent.openEvent => { st with status := "connected" }
  | _, SessionEvent.errorEvent => { status := "error", hasSession := false }
  | _, SessionEvent.closeEvent =>
      { status := "disconnected", hasSession := false }
  | _, SessionEvent.connectFailure =>
      { status := "error", hasSession := false }

/-- `Content` as built in `src/services/geminiService.ts`: a role and
the texts of the `parts` array. -/
structure Content where
  role : String
  parts : List String
deriving DecidableEq, Repr

/-- `mapHistoryToGenAI` from `src/services/geminiService.ts`. -/
def mapHistoryToGenAI (history : List TranscriptEntry) : List Content :=
  history.map (fun entry =>
    { role := if entry.speaker = Speaker.user then "user" else "model",
      parts := [entry.text] })

/-- The `contents` array passed to `generateContent` by
`sendChatMessage`: the mapped history followed by the new prompt with
role `'user'`. -/
def sendChatMessageContents (prompt : String)
    (history : List TranscriptEntry) : List Content :=
  mapHistoryToGenAI history ++ [{ role := "user", parts := [prompt] }]

/-- One candidate of a `generateContent` response, keeping only its
optional grounding metadata. -/
structure Candidate where
  groundingMetadata : Option GroundingMetadata
deriving DecidableEq, Repr

/-- A `generateContent` response, keeping the fields `sendChatMessage`
reads: `response.text` and `response.candidates`. -/
structure GenerateContentResponse where
  text : String
  candidates : Option (List Candidate)
deriving DecidableEq, Repr

/-- The chunk list reached through
`response.candidates?.[0]?.groundingMetadata` followed by the
`groundingChunks` guard; any missing link gives the empty list. -/
def responseChunks (resp : GenerateContentResponse) : List GroundingChunk :=
  match resp.candidates with
  | none => []
  | some [] => []
  | some (cand :: _) => metadataChunks cand.groundingMetadata

/-- The value returned by `sendChatMessage` once the response is in:
the response text and the extracted grounding sources. -/
def sendChatMessageResult (resp : GenerateContentResponse) :
    String × List GroundingSource :=
  (resp.text, extractGroundingSources chatReviewFallback (responseChunks resp))

/-- Concatenation of a list of strings in order, used to state what
the delta accumulators compute. -/
def concatStrings : List String → String
  | [] => ""
  | s :: rest => s ++ concatStrings rest

/-! ## Theorems -/

/-- C9: `getTraitLevel` is a total three-way partition of the rational
line: it returns `bajo` iff the value is at most 3, `medio` iff the
value is greater than 3 and at most 7, and `alto` iff the value is
greater than 7. -/
theorem trait_level_partition (value : ℚ) :
    (getTraitLevel value = TraitLevel.bajo ↔ value ≤ 3)
    ∧ (getTraitLevel value = TraitLevel.medio ↔ 3 < value ∧ value ≤ 7)
    ∧ (getTraitLevel value = TraitLevel.alto ↔ 7 < value) := by
  unfold getTraitLevel
  split_ifs with h1 h2
  · refine ⟨iff_of_true rfl h1, iff_of_false (by simp) ?_,
      iff_of_false (by simp) ?_⟩
    · intro h
      linarith [h.1]
    · intro h
      linarith
  · push_neg at h1
    refine ⟨iff_of_false (by simp) ?_, iff_of_true rfl ⟨h1, h2⟩,
      iff_of_false (by simp) ?_⟩
    · intro h
      linarith
    · intro h
      linarith
  · push_neg at h1 h2
    refine ⟨iff_of_false (by simp) ?_, iff_of_false (by simp) ?_,
      iff_of_true rfl h2⟩
    · intro h
      linarith
    · intro h
      linarith [h.2]

/-- C10: `handleFeedback` keeps the length and order of the
transcripts; the entries whose id matches get the new feedback value
with every other field unchanged, entries with a different id are
completely unchanged, and if no entry has the given id the list is
unchanged. -/
theorem handle_feedback_frame (id : Nat) (feedback : Feedback)
    (transcripts : List TranscriptEntry) :
    (handleFeedback id feedback transcripts).length = transcripts.length
    ∧ (∀ (i : Nat) (e : TranscriptEntry), transcripts[i]? = some e →
        ∃ r, (handleFeedback id feedback transcripts)[i]? = some r
          ∧ (e.id = id →
              r.speaker = e.speaker ∧ r.text = e.text
              ∧ r.isFinal = e.isFinal ∧ r.id = e.id
              ∧ r.sources = e.sources ∧ r.feedback = some feedback)
          ∧ (e.id ≠ id → r = e))
    ∧ ((∀ e ∈ transcripts, e.id ≠ id) →
        handleFeedback id feedback transcripts = transcripts) := by
  refine ⟨List.length_map _ _, ?_, ?_⟩
  · intro i e he
    refine ⟨if e.id = id then { e with feedback := some feedback } else e,
      ?_, ?_, ?_⟩
    · rw [handleFeedback, List.getElem?_map, he]
      rfl
    · intro h
      simp [h]
    · intro h
      simp [h]
  · intro h
    have hcong : transcripts.map (fun entry =>
        if entry.id = id then { entry with feedback := some feedback }
        else entry) = transcripts.map (fun a => a) :=
      List.map_congr_left (fun a ha => by simp [h a ha])
    rw [handleFeedback, hcong, List.map_id']

/-- Concrete transcript entries used by the witnesses. -/
def entryA : TranscriptEntry :=
  { speaker := Speaker.user, text := "hola", isFinal := true, id := 1,
    feedback := none, sources := none }

/-- Concrete transcript entry used by the witnesses. -/
def entryB : TranscriptEntry :=
  { speaker := Speaker.mary, text := "buenas", isFinal := true, id := 2,
    feedback := none, sources := none }

/-- Witness for C10 at a concrete list. -/
theorem handle_feedback_frame_witness :
    (handleFeedback 1 Feedback.up [entryA, entryB]).length = 2
    ∧ handleFeedback 3 Feedback.up [entryA, entryB] = [entryA, entryB] := by
  refine ⟨(handle_feedback_frame 1 Feedback.up [entryA, entryB]).1, ?_⟩
  apply (handle_feedback_frame 3 Feedback.up [entryA, entryB]).2.2
  intro e he
  rcases List.mem_cons.mp he with h | h
  · rw [h]
    decide
  · rcases List.mem_cons.mp h with h2 | h2
    · rw [h2]
      decide
    · simp at h2

/-- C4: the `interrupted` branch stops exactly the queued sources,
empties the queued set and resets `nextAudioStartTime` to 0; hence a
chunk processed next (at a non-negative audio-context time) is
scheduled at the current time itself. -/
theorem interruption_resets (st : AudioPlaybackState)
    (currentTime duration : ℚ) (srcId : Nat) (hct : 0 ≤ currentTime) :
    (processInterrupted st).1 = st.audioSources
    ∧ (processInterrupted st).2.audioSources = []
    ∧ (processInterrupted st).2.nextAudioStartTime = 0
    ∧ (scheduleAudioChunk currentTime duration srcId
        (processInterrupted st).2).1 = currentTime := by
  refine ⟨rfl, rfl, rfl, ?_⟩
  simp only [scheduleAudioChunk, processInterrupted]
  exact max_eq_right hct

/-- Witness for C4 at a concrete interrupted state. -/
theorem interruption_resets_witness :
    (processInterrupted
        { nextAudioStartTime := 5, audioSources := [1, 2] }).1 = [1, 2]
    ∧ (scheduleAudioChunk 2 1 7 (processInterrupted
        { nextAudioStartTime := 5, audioSources := [1, 2] }).2).1 = 2 := by
  have h := interruption_resets
    { nextAudioStartTime := 5, audioSources := [1, 2] } 2 1 7 (by norm_num)
  exact ⟨h.1, h.2.2.2⟩

/-- C6: `connect` is a no-op whenever the status is not `'idle'` or a
session reference exists; the error paths land in `'error'` and the
remote close in `'disconnected'`, and from any such state every
further sequence of `connect` calls leaves the state unchanged. -/
theorem no_reconnect_path (st : ConnectionState)
    (hguard : st.status ≠ "idle" ∨ st.hasSession = true) :
    stepSession st SessionEvent.connectCall = st
    ∧ (stepSession st SessionEvent.errorEvent).status = "error"
    ∧ (stepSession st SessionEvent.connectFailure).status = "error"
    ∧ (stepSession st SessionEvent.closeEvent).status = "disconnected"
    ∧ (∀ st2 : ConnectionState,
        st2.status = "error" ∨ st2.status = "disconnected" →
        ∀ calls : List SessionEvent,
          (∀ e ∈ calls, e = SessionEvent.connectCall) →
          calls.foldl stepSession st2 = st2) := by
  refine ⟨?_, rfl, rfl, rfl, ?_⟩
  · simp only [stepSession]
    rw [if_pos hguard]
  · intro st2 hst2 calls
    induction calls with
    | nil =>
      intro _
      rfl
    | cons e rest ih =>
      intro hcalls
      have he : e = SessionEvent.connectCall := hcalls e (by simp)
      have hne : st2.status ≠ "idle" := by
        rcases hst2 with h | h <;> rw [h] <;> decide
      rw [List.foldl_cons, he]
      have hstep : stepSession st2 SessionEvent.connectCall = st2 := by
        simp only [stepSession]
        rw [if_pos (Or.inl hne)]
      rw [hstep]
      exact ih (fun e2 h2 => hcalls e2 (List.mem_cons_of_mem _ h2))

/-- Witness for C6 at concrete error and disconnected states. -/
theorem no_reconnect_path_witness :
    stepSession { status := "error", hasSession := false }
        SessionEvent.connectCall
      = { status := "error", hasSession := false }
    ∧ [SessionEvent.connectCall, SessionEvent.connectCall].foldl stepSession
        { status := "disconnected", hasSession := false }
      = { status := "disconnected", hasSession := false } := by
  have h := no_reconnect_path { status := "error", hasSession := false }
    (Or.inl (by decide))
  refine ⟨h.1, ?_⟩
  exact h.2.2.2.2 { status := "disconnected", hasSession := false }
    (Or.inr rfl) [SessionEvent.connectCall, SessionEvent.connectCall]
    (by decide)

/-- One snippet's push step equals appending its optional source. -/
theorem pushReviewSource_eq (fb : String) (a : List GroundingSource)
    (s : ReviewSnippet) :
    pushReviewSource fb a s = a ++ (reviewSource? fb s).toList := by
  unfold pushReviewSource reviewSource?
  cases hr : s.review with
  | nullVal => simp
  | strVal s2 => simp
  | objVal u t => cases u <;> simp

/-- The snippet loop equals the accumulator followed by the filtered
snippet sources. -/
theorem foldl_pushReviewSource (fb : String) (snips : List ReviewSnippet)
    (acc : List GroundingSource) :
    snips.foldl (pushReviewSource fb) acc
      = acc ++ snips.filterMap (reviewSource? fb) := by
  induction snips generalizing acc with
  | nil => simp
  | cons s rest ih =>
    rw [List.foldl_cons, ih, pushReviewSource_eq, List.filterMap_cons]
    cases hr : reviewSource? fb s <;> simp

/-- One chunk's push step equals appending that chunk's sources. -/
theorem pushChunkSources_eq (fb : String) (acc : List GroundingSource)
    (chunk : GroundingChunk) :
    pushChunkSources fb acc chunk = acc ++ chunkSources fb chunk := by
  unfold pushChunkSources chunkSources
  cases hw : chunk.web with
  | some w => simp
  | none =>
    cases hm : chunk.maps with
    | some m => simp [foldl_pushReviewSource]
    | none => simp

/-- The extraction loop over the chunks, from any accumulator. -/
theorem foldl_pushChunkSources (fb : String) (chunks : List GroundingChunk)
    (acc : List GroundingSource) :
    chunks.foldl (pushChunkSources fb) acc
      = acc ++ chunks.flatMap (chunkSources fb) := by
  induction chunks generalizing acc with
  | nil => simp
  | cons c rest ih =>
    rw [List.foldl_cons, ih, pushChunkSources_eq]
    simp

/-- The extraction loop computes the concatenation of per-chunk
sources. -/
theorem extractGroundingSources_eq (fb : String)
    (chunks : List GroundingChunk) :
    extractGroundingSources fb chunks
      = chunks.flatMap (chunkSources fb) := by
  rw [extractGroundingSources, foldl_pushChunkSources]
  simp

/-- C7: `sendChatMessage` builds a contents list of length
`history.length + 1`: position `i` carries the `i`-th history entry's
text with role `'user'` for the user speaker and `'model'` otherwise,
and the last position carries the new prompt with role `'user'`; the
returned value pairs the response text with the grounding sources of
the first candidate, one `search` source per web chunk, one `maps`
source per maps chunk, plus one `review` source per qualifying review
snippet. -/
theorem send_chat_message_spec (prompt : String)
    (history : List TranscriptEntry) (resp : GenerateContentResponse) :
    (sendChatMessageContents prompt history).length = history.length + 1
    ∧ (∀ (i : Nat) (e : TranscriptEntry), history[i]? = some e →
        (sendChatMessageContents prompt history)[i]?
          = some { role := if e.speaker = Speaker.user then "user"
                           else "model",
                   parts := [e.text] })
    ∧ (sendChatMessageContents prompt history)[history.length]?
        = some { role := "user", parts := [prompt] }
    ∧ (sendChatMessageResult resp).1 = resp.text
    ∧ (sendChatMessageResult resp).2
        = (responseChunks resp).flatMap (chunkSources chatReviewFallback) := by
  refine ⟨?_, ?_, ?_, rfl, extractGroundingSources_eq _ _⟩
  · rw [sendChatMessageContents]
    simp [mapHistoryToGenAI]
  · intro i e he
    have hi : i < history.length := by
      by_contra hlt
      push_neg at hlt
      rw [List.getElem?_eq_none hlt] at he
      exact Option.noConfusion he
    rw [sendChatMessageContents, mapHistoryToGenAI,
      List.getElem?_append_left (by simpa using hi), List.getElem?_map, he]
    rfl
  · rw [sendChatMessageContents, mapHistoryToGenAI,
      List.getElem?_append_right (by simp)]
    simp

/-- Witness for C7 at a concrete one-entry history. -/
theorem send_chat_message_spec_witness :
    (sendChatMessageContents "hola" [entryB])[0]?
      = some { role := "model", parts := ["buenas"] } := by
  have h := (send_chat_message_spec "hola" [entryB]
    { text := "ok", candidates := none }).2.1 0 entryB rfl
  simpa [entryB] using h

/-- Every encoded sample of `createPcmBlob` fits the signed 16-bit
range. -/
theorem pcmSample_bounds (x : ℚ) :
    -32768 ≤ pcmSample x ∧ pcmSample x ≤ 32767 := by
  unfold pcmSample ratTrunc
  have hlo : (-32768 : ℚ) ≤ max (-32768) (min 32767 (x * 32768)) :=
    le_max_left _ _
  have hhi : max (-32768 : ℚ) (min 32767 (x * 32768)) ≤ 32767 :=
    max_le (by norm_num) (min_le_left _ _)
  split_ifs with h
  · constructor
    · have h0 : (0 : ℤ) ≤ ⌊max (-32768 : ℚ) (min 32767 (x * 32768))⌋ :=
        Int.floor_nonneg.mpr h
      linarith
    · have := Int.floor_le_floor (α := ℚ) hhi
      simpa using this
  · push_neg at h
    constructor
    · have := Int.ceil_le_ceil (α := ℚ) hlo
      simp [Int.ceil_neg] at this
      exact this
    · have h0 : ⌈max (-32768 : ℚ) (min 32767 (x * 32768))⌉ ≤ 0 :=
        Int.ceil_le.mpr (by exact_mod_cast h.le)
      linarith

/-- C8 as stated fails: the `Int16Array` store truncates the clamped
value toward zero, so a fractional clamped value is not reproduced
exactly.  At input `3/65536` the clamped value is `3/2` while the
stored sample is `1`. -/
theorem pcm_claim_counterexample :
    ¬ ((createPcmBlob [3/65536] 16000).data[0]?.map (fun (n : ℤ) => (n : ℚ))
        = some (max (-32768) (min 32767 ((3/65536 : ℚ) * 32768)))) := by
  have h1 : (createPcmBlob [3/65536] 16000).data = [1] := by
    rw [createPcmBlob]
    rw [List.map_cons, List.map_nil]
    have h0 : pcmSample (3/65536) = 1 := by
      unfold pcmSample ratTrunc
      norm_num
    rw [h0]
  rw [h1]
  have h2 : (([1] : List ℤ)[0]?).map (fun (n : ℤ) => (n : ℚ))
      = some (1 : ℚ) := rfl
  rw [h2]
  intro h
  have h3 := Option.some.inj h
  norm_num at h3

/-- C8 amended: `createPcmBlob` is length-preserving, its mime type is
`'audio/pcm;rate='` followed by the sample rate, and each output
sample is the input times 32768, clamped to `[-32768, 32767]` and
then truncated toward zero; in particular every output sample lies in
the signed 16-bit range. -/
theorem pcm_encoding_spec (data : List ℚ) (sampleRate : Nat) :
    (createPcmBlob data sampleRate).data.length = data.length
    ∧ (createPcmBlob data sampleRate).mimeType
        = "audio/pcm;rate=" ++ toString sampleRate
    ∧ (∀ (i : Nat) (x : ℚ), data[i]? = some x →
        (createPcmBlob data sampleRate).data[i]?
          = some (ratTrunc (max (-32768) (min 32767 (x * 32768)))))
    ∧ (∀ n ∈ (createPcmBlob data sampleRate).data,
        -32768 ≤ n ∧ n ≤ 32767) := by
  refine ⟨List.length_map _ _, rfl, ?_, ?_⟩
  · intro i x hx
    rw [createPcmBlob, List.getElem?_map, hx]
    rfl
  · intro n hn
    rw [createPcmBlob] at hn
    obtain ⟨x, hx, rfl⟩ := List.mem_map.mp hn
    exact pcmSample_bounds x

/-- Witness for C8's amended statement at a concrete sample list. -/
theorem pcm_encoding_spec_witness :
    (createPcmBlob [3/65536, -2] 16000).data.length = 2
    ∧ (createPcmBlob [3/65536, -2] 16000).data[1]?
        = some (ratTrunc (max (-32768) (min 32767 ((-2 : ℚ) * 32768)))) := by
  have h := pcm_encoding_spec [3/65536, -2] 16000
  exact ⟨h.1, h.2.2.1 1 (-2) rfl⟩

/-- Unfolding `nextTimeAfter` one chunk at a time. -/
theorem nextTimeAfter_cons (init : ℚ) (c : AudioChunk)
    (l : List AudioChunk) :
    nextTimeAfter init (c :: l)
      = nextTimeAfter (max init c.currentTime + c.duration) l := rfl

/-- C1: the output audio queue is a timestamp accumulator — whenever
every chunk of a sequence is processed while the accumulated
`nextAudioStartTime` is at or above the audio context's current time,
each chunk's scheduled start time equals the previous chunk's start
time plus the previous chunk's duration. -/
theorem audio_gap_free (init : ℚ) (chunks : List AudioChunk)
    (hsched : ∀ (i : Nat) (c : AudioChunk), chunks[i]? = some c →
        c.currentTime ≤ nextTimeAfter init (chunks.take i)) :
    ∀ (i : Nat) (c c2 : AudioChunk) (s : ℚ),
      chunks[i]? = some c → chunks[i+1]? = some c2 →
      (audioStartTimes init chunks)[i]? = some s →
      (audioStartTimes init chunks)[i+1]? = some (s + c.duration) := by
  induction chunks generalizing init with
  | nil =>
    intro i c c2 s hc
    simp at hc
  | cons c0 rest ih =>
    intro i c c2 s hc hc2 hs
    cases i with
    | zero =>
      cases rest with
      | nil => simp at hc2
      | cons c1 rest2 =>
        have hcc : c = c0 := by
          simpa using hc.symm
        have hcc2 : c2 = c1 := by
          simpa using hc2.symm
        have hss : s = max init c0.currentTime := by
          simpa [audioStartTimes] using hs.symm
        have hb : c1.currentTime
            ≤ max init c0.currentTime + c0.duration := by
          have := hsched 1 c1 (by simp)
          simpa [nextTimeAfter_cons, nextTimeAfter] using this
        simp only [audioStartTimes]
        rw [List.getElem?_cons_succ, List.getElem?_cons_zero]
        rw [hss, hcc]
        rw [max_eq_left hb]
    | succ j =>
      have hc' : rest[j]? = some c := by
        simpa using hc
      have hc2' : rest[j+1]? = some c2 := by
        simpa using hc2
      have hs' : (audioStartTimes
          (max init c0.currentTime + c0.duration) rest)[j]? = some s := by
        simpa [audioStartTimes] using hs
      have hsched' : ∀ (i : Nat) (c3 : AudioChunk), rest[i]? = some c3 →
          c3.currentTime ≤ nextTimeAfter
            (max init c0.currentTime + c0.duration) (rest.take i) := by
        intro i2 c3 hc3
        have := hsched (i2+1) c3 (by simpa using hc3)
        rw [List.take_succ_cons, nextTimeAfter_cons] at this
        exact this
      have := ih (max init c0.currentTime + c0.duration) hsched'
        j c c2 s hc' hc2' hs'
      simpa [audioStartTimes] using this

/-- Witness for C1 at a concrete two-chunk sequence. -/
theorem audio_gap_free_witness :
    (audioStartTimes 0 [{ currentTime := 0, duration := 2 },
        { currentTime := 1, duration := 3 }])[1]? = some (0 + 2) := by
  have hsched : ∀ (i : Nat) (c : AudioChunk),
      ([{ currentTime := 0, duration := 2 },
        { currentTime := 1, duration := 3 }] : List AudioChunk)[i]? = some c →
      c.currentTime ≤ nextTimeAfter 0
        (([{ currentTime := 0, duration := 2 },
          { currentTime := 1, duration := 3 }] : List AudioChunk).take i) := by
    intro i c hc
    match i with
    | 0 =>
      have hcc : c = { currentTime := 0, duration := 2 } := by
        simpa using hc.symm
      rw [hcc]
      norm_num [nextTimeAfter]
    | 1 =>
      have hcc : c = { currentTime := 1, duration := 3 } := by
        simpa using hc.symm
      rw [hcc]
      show (1 : ℚ) ≤ List.foldl _ 0 _
      rw [List.take_succ_cons, List.take_zero, List.foldl_cons,
        List.foldl_nil]
      norm_num
    | n + 2 => simp at hc
  have hstart : (audioStartTimes 0 [{ currentTime := 0, duration := 2 },
      { currentTime := 1, duration := 3 }])[0]? = some 0 := by
    simp [audioStartTimes]
  have h := audio_gap_free 0
    [{ currentTime := 0, duration := 2 }, { currentTime := 1, duration := 3 }]
    hsched 0 { currentTime := 0, duration := 2 }
    { currentTime := 1, duration := 3 } 0 rfl rfl hstart
  simpa using h

/-- C5: a transcription-delta update either appends exactly one new
entry at the end (current-turn id falsy) or maps over the list,
changing only the text of entries whose id equals the current turn's
id and leaving the length, the order, every other entry and every
other field unchanged; and symmetrically for the output side. -/
theorem transcript_reducer_frame (now : Nat) (text : String)
    (st : SessionState) :
    (jsFalsyId st.currentUserTranscriptId = true →
      (processInputTranscription now text st).transcripts
        = st.transcripts ++
          [{ speaker := Speaker.user,
             text := st.currentInputTranscription ++ text, isFinal := false,
             id := now, feedback := none, sources := none }])
    ∧ (jsFalsyId st.currentUserTranscriptId = false →
      (processInputTranscription now text st).transcripts.length
          = st.transcripts.length
      ∧ (∀ (i : Nat) (e : TranscriptEntry), st.transcripts[i]? = some e →
          ∃ r, (processInputTranscription now text st).transcripts[i]?
              = some r
            ∧ (some e.id = st.currentUserTranscriptId →
                r.speaker = e.speaker
                ∧ r.text = st.currentInputTranscription ++ text
                ∧ r.isFinal = e.isFinal ∧ r.id = e.id
                ∧ r.feedback = e.feedback ∧ r.sources = e.sources)
            ∧ (¬ some e.id = st.currentUserTranscriptId → r = e)))
    ∧ (jsFalsyId st.currentMaryTranscriptId = true →
      (processOutputTranscription now text st).transcripts
        = st.transcripts ++
          [{ speaker := Speaker.mary,
             text := st.currentOutputTranscription ++ text, isFinal := false,
             id := now, feedback := none, sources := none }])
    ∧ (jsFalsyId st.currentMaryTranscriptId = false →
      (processOutputTranscription now text st).transcripts.length
          = st.transcripts.length
      ∧ (∀ (i : Nat) (e : TranscriptEntry), st.transcripts[i]? = some e →
          ∃ r, (processOutputTranscription now text st).transcripts[i]?
              = some r
            ∧ (some e.id = st.currentMaryTranscriptId →
                r.speaker = e.speaker
                ∧ r.text = st.currentOutputTranscription ++ text
                ∧ r.isFinal = e.isFinal ∧ r.id = e.id
                ∧ r.feedback = e.feedback ∧ r.sources = e.sources)
            ∧ (¬ some e.id = st.currentMaryTranscriptId → r = e))) := by
  refine ⟨?_, ?_, ?_, ?_⟩
  · intro h
    simp [processInputTranscription, h]
  · intro h
    constructor
    · simp [processInputTranscription, h]
    · intro i e he
      refine ⟨if some e.id = st.currentUserTranscriptId then
          { e with text := st.currentInputTranscription ++ text } else e,
        ?_, ?_, ?_⟩
      · simp only [processInputTranscription, h, Bool.false_eq_true,
          if_false, List.getElem?_map, he, Option.map_some']
      · intro hm
        simp [hm]
      · intro hm
        simp [hm]
  · intro h
    simp [processOutputTranscription, h]
  · intro h
    constructor
    · simp [processOutputTranscription, h]
    · intro i e he
      refine ⟨if some e.id = st.currentMaryTranscriptId then
          { e with text := st.currentOutputTranscription ++ text } else e,
        ?_, ?_, ?_⟩
      · simp only [processOutputTranscription, h, Bool.false_eq_true,
          if_false, List.getElem?_map, he, Option.map_some']
      · intro hm
        simp [hm]
      · intro hm
        simp [hm]

/-- Invariant for the input-delta fold: once the user entry sits at
the tail with text equal to the accumulator, every further delta
keeps it there and extends both by the delta's text. -/
theorem foldl_input_inv (now : Nat) (hnow : now ≠ 0)
    (old : List TranscriptEntry) (hfresh : ∀ e ∈ old, e.id ≠ now) :
    ∀ (rest : List String) (st : SessionState),
      st.currentUserTranscriptId = some now →
      st.transcripts = old ++
        [{ speaker := Speaker.user, text := st.currentInputTranscription,
           isFinal := false, id := now, feedback := none,
           sources := none }] →
      ((rest.foldl (fun s t => processInputTranscription now t s)
          st).transcripts
        = old ++
          [{ speaker := Speaker.user,
             text := st.currentInputTranscription ++ concatStrings rest,
             isFinal := false, id := now, feedback := none,
             sources := none }])
      ∧ (rest.foldl (fun s t => processInputTranscription now t s)
          st).currentInputTranscription
          = st.currentInputTranscription ++ concatStrings rest
      ∧ (rest.foldl (fun s t => processInputTranscription now t s)
          st).currentUserTranscriptId = some now := by
  intro rest
  induction rest with
  | nil =>
    intro st hid hts
    refine ⟨?_, ?_, hid⟩
    · simpa [concatStrings] using hts
    · simp [concatStrings]
  | cons t ts ih =>
    intro st hid hts
    have hfalse : jsFalsyId st.currentUserTranscriptId = false := by
      rw [hid]
      simp [jsFalsyId, hnow]
    have hstep : processInputTranscription now t st
        = { st with
            currentInputTranscription := st.currentInputTranscription ++ t,
            transcripts := old ++
              [{ speaker := Speaker.user,
                 text := st.currentInputTranscription ++ t,
                 isFinal := false, id := now, feedback := none,
                 sources := none }] } := by
      simp only [processInputTranscription, hfalse, Bool.false_eq_true,
        if_false]
      congr 1
      rw [hts, List.map_append, hid]
      congr 1
      · have hcong : old.map (fun e =>
            if some e.id = some now then
              { e with text := st.currentInputTranscription ++ t }
            else e) = old.map (fun a => a) :=
          List.map_congr_left (fun e heo => by simp [hfresh e heo])
        rw [hcong, List.map_id']
      · simp
    rw [List.foldl_cons]
    have hmain := ih (processInputTranscription now t st)
      (by rw [hstep]; exact hid) (by rw [hstep])
    rw [hstep] at hmain ⊢
    obtain ⟨h1, h2, h3⟩ := hmain
    refine ⟨?_, ?_, h3⟩
    · rw [h1]
      simp [concatStrings, String.append_assoc]
    · rw [h2]
      simp [concatStrings, String.append_assoc]

/-- Invariant for the output-delta fold, symmetric to
`foldl_input_inv`. -/
theorem foldl_output_inv (now : Nat) (hnow : now ≠ 0)
    (old : List TranscriptEntry) (hfresh : ∀ e ∈ old, e.id ≠ now) :
    ∀ (rest : List String) (st : SessionState),
      st.currentMaryTranscriptId = some now →
      st.transcripts = old ++
        [{ speaker := Speaker.mary, text := st.currentOutputTranscription,
           isFinal := false, id := now, feedback := none,
           sources := none }] →
      ((rest.foldl (fun s t => processOutputTranscription now t s)
          st).transcripts
        = old ++
          [{ speaker := Speaker.mary,
             text := st.currentOutputTranscription ++ concatStrings rest,
             isFinal := false, id := now, feedback := none,
             sources := none }])
      ∧ (rest.foldl (fun s t => processOutputTranscription now t s)
          st).currentOutputTranscription
          = st.currentOutputTranscription ++ concatStrings rest
      ∧ (rest.foldl (fun s t => processOutputTranscription now t s)
          st).currentMaryTranscriptId = some now := by
  intro rest
  induction rest with
  | nil =>
    intro st hid hts
    refine ⟨?_, ?_, hid⟩
    · simpa [concatStrings] using hts
    · simp [concatStrings]
  | cons t ts ih =>
    intro st hid hts
    have hfalse : jsFalsyId st.currentMaryTranscriptId = false := by
      rw [hid]
      simp [jsFalsyId, hnow]
    have hstep : processOutputTranscription now t st
        = { st with
            currentOutputTranscription := st.currentOutputTranscription ++ t,
            transcripts := old ++
              [{ speaker := Speaker.mary,
                 text := st.currentOutputTranscription ++ t,
                 isFinal := false, id := now, feedback := none,
                 sources := none }] } := by
      simp only [processOutputTranscription, hfalse, Bool.false_eq_true,
        if_false]
      congr 1
      rw [hts, List.map_append, hid]
      congr 1
      · have hcong : old.map (fun e =>
            if some e.id = some now then
              { e with text := st.currentOutputTranscription ++ t }
            else e) = old.map (fun a => a) :=
          List.map_congr_left (fun e heo => by simp [hfresh e heo])
        rw [hcong, List.map_id']
      · simp
    rw [List.foldl_cons]
    have hmain := ih (processOutputTranscription now t st)
      (by rw [hstep]; exact hid) (by rw [hstep])
    rw [hstep] at hmain ⊢
    obtain ⟨h1, h2, h3⟩ := hmain
    refine ⟨?_, ?_, h3⟩
    · rw [h1]
      simp [concatStrings, String.append_assoc]
    · rw [h2]
      simp [concatStrings, String.append_assoc]

/-- C2: starting from the post-turn state (empty accumulators, null
id refs), after any prefix of the delta sequence the corresponding
transcript entry holds exactly the concatenation of the deltas seen
so far, in arrival order, still non-final: the first delta appends
the entry, each later delta rewrites the same entry's text; the same
holds on the output side. -/
theorem streaming_transcript_concat (st : SessionState) (nowU nowM : Nat)
    (deltasU deltasM : List String)
    (hinEmpty : st.currentInputTranscription = "")
    (houtEmpty : st.currentOutputTranscription = "")
    (hU : st.currentUserTranscriptId = none)
    (hM : st.currentMaryTranscriptId = none)
    (hnU : nowU ≠ 0) (hnM : nowM ≠ 0)
    (hfreshU : ∀ e ∈ st.transcripts, e.id ≠ nowU)
    (hfreshM : ∀ e ∈ st.transcripts, e.id ≠ nowM) :
    (∀ k : Nat, k < deltasU.length →
      ((deltasU.take (k+1)).foldl
          (fun s t => processInputTranscription nowU t s) st).transcripts
        = st.transcripts ++
          [{ speaker := Speaker.user,
             text := concatStrings (deltasU.take (k+1)), isFinal := false,
             id := nowU, feedback := none, sources := none }])
    ∧ (∀ k : Nat, k < deltasM.length →
      ((deltasM.take (k+1)).foldl
          (fun s t => processOutputTranscription nowM t s) st).transcripts
        = st.transcripts ++
          [{ speaker := Speaker.mary,
             text := concatStrings (deltasM.take (k+1)), isFinal := false,
             id := nowM, feedback := none, sources := none }]) := by
  constructor
  · intro k hk
    cases deltasU with
    | nil => simp at hk
    | cons d ds =>
      have htrue : jsFalsyId st.currentUserTranscriptId = true := by
        rw [hU]
        rfl
      have hstep : processInputTranscription nowU d st
          = { st with
              currentInputTranscription := st.currentInputTranscription ++ d,
              currentUserTranscriptId := some nowU,
              transcripts := st.transcripts ++
                [{ speaker := Speaker.user,
                   text := st.currentInputTranscription ++ d,
                   isFinal := false, id := nowU, feedback := none,
                   sources := none }] } := by
        simp only [processInputTranscription, htrue, if_true]
      rw [List.take_succ_cons, List.foldl_cons]
      have hmain := (foldl_input_inv nowU hnU st.transcripts hfreshU
        (ds.take k) (processInputTranscription nowU d st)
        (by rw [hstep]) (by rw [hstep])).1
      rw [hstep] at hmain ⊢
      rw [hmain]
      simp [hinEmpty, concatStrings]
  · intro k hk
    cases deltasM with
    | nil => simp at hk
    | cons d ds =>
      have htrue : jsFalsyId st.currentMaryTranscriptId = true := by
        rw [hM]
        rfl
      have hstep : processOutputTranscription nowM d st
          = { st with
              currentOutputTranscription := st.currentOutputTranscription ++ d,
              currentMaryTranscriptId := some nowM,
              transcripts := st.transcripts ++
                [{ speaker := Speaker.mary,
                   text := st.currentOutputTranscription ++ d,
                   isFinal := false, id := nowM, feedback := none,
                   sources := none }] } := by
        simp only [processOutputTranscription, htrue, if_true]
      rw [List.take_succ_cons, List.foldl_cons]
      have hmain := (foldl_output_inv nowM hnM st.transcripts hfreshM
        (ds.take k) (processOutputTranscription nowM d st)
        (by rw [hstep]) (by rw [hstep])).1
      rw [hstep] at hmain ⊢
      rw [hmain]
      simp [houtEmpty, concatStrings]

/-- The initial transcript state of the hook: no transcripts, empty
accumulators, null id refs. -/
def emptySession : SessionState :=
  { transcripts := [], currentInputTranscription := "",
    currentOutputTranscription := "", currentUserTranscriptId := none,
    currentMaryTranscriptId := none }

/-- Witness for C2 at a concrete two-delta turn. -/
theorem streaming_transcript_concat_witness :
    (((["ho", "la"] : List String).take 2).foldl
        (fun s t => processInputTranscription 1 t s) emptySession).transcripts
      = [{ speaker := Speaker.user,
           text := concatStrings ((["ho", "la"] : List String).take 2),
           isFinal := false, id := 1, feedback := none, sources := none }] := by
  have h := (streaming_transcript_concat emptySession 1 2 ["ho", "la"] ["ok"]
    rfl rfl rfl rfl one_ne_zero two_ne_zero (by simp [emptySession])
    (by simp [emptySession])).1 1 (by norm_num)
  simpa [emptySession] using h

/-- Witness for C5: the first delta of a turn appends one entry. -/
theorem transcript_reducer_frame_witness :
    (processInputTranscription 5 "hey" emptySession).transcripts
      = [{ speaker := Speaker.user, text := "hey", isFinal := false,
           id := 5, feedback := none, sources := none }] := by
  have h := (transcript_reducer_frame 5 "hey" emptySession).1 rfl
  simpa [emptySession] using h

/-- C3: on `turnComplete`, the in-progress user and mary entries are
finalised with their accumulated texts, the grounding sources are
attached to the mary entry only when at least one source was
extracted, every other entry is untouched, and both accumulators and
both current-entry id refs are reset, so the next delta starts a
fresh entry. -/
theorem turn_complete_finalises (st : SessionState)
    (gm : Option GroundingMetadata) (u m : Nat)
    (sources : List GroundingSource)
    (hsrc : sources
      = extractGroundingSources liveReviewFallback (metadataChunks gm))
    (hu : st.currentUserTranscriptId = some u)
    (hm : st.currentMaryTranscriptId = some m)
    (hu0 : u ≠ 0) (hm0 : m ≠ 0) (hum : u ≠ m) :
    (processTurnComplete gm st).currentInputTranscription = ""
    ∧ (processTurnComplete gm st).currentOutputTranscription = ""
    ∧ (processTurnComplete gm st).currentUserTranscriptId = none
    ∧ (processTurnComplete gm st).currentMaryTranscriptId = none
    ∧ (processTurnComplete gm st).transcripts.length
        = st.transcripts.length
    ∧ (∀ (i : Nat) (e : TranscriptEntry), st.transcripts[i]? = some e →
        (processTurnComplete gm st).transcripts[i]?
          = some (
            if e.id = u then
              { e with text := st.currentInputTranscription,
                       isFinal := true }
            else if e.id = m then
              { e with text := st.currentOutputTranscription,
                       isFinal := true,
                       sources := (if sources ≠ [] then some sources
                                   else none) }
            else e)) := by
  subst hsrc
  have hfu : jsFalsyId (some u) = false := by
    simp [jsFalsyId, hu0]
  have hfm : jsFalsyId (some m) = false := by
    simp [jsFalsyId, hm0]
  simp only [processTurnComplete, hu, hm, hfu, hfm, Bool.false_eq_true,
    if_false]
  refine ⟨trivial, trivial, trivial, trivial, by simp, ?_⟩
  intro i e he
  rw [List.getElem?_map, List.getElem?_map, he, Option.map_some',
    Option.map_some']
  by_cases h1 : e.id = u
  · simp [h1, hum]
  · by_cases h2 : e.id = m
    · simp [h1, h2, Ne.symm hum, List.length_pos]
    · simp [h1, h2]

/-- Concrete in-progress session used by the C3 witness. -/
def sessionW : SessionState :=
  { transcripts := [entryA, entryB], currentInputTranscription := "hola",
    currentOutputTranscription := "que tal",
    currentUserTranscriptId := some 1, currentMaryTranscriptId := some 2 }

/-- Witness for C3 at a concrete in-progress session. -/
theorem turn_complete_finalises_witness :
    (processTurnComplete none sessionW).currentMaryTranscriptId = none
    ∧ (processTurnComplete none sessionW).transcripts[0]?
        = some { speaker := Speaker.user, text := "hola", isFinal := true,
                 id := 1, feedback := none, sources := none } := by
  have h := turn_complete_finalises sessionW none 1 2 [] rfl rfl rfl
    (by decide) (by decide) (by decide)
  refine ⟨h.2.2.2.1, ?_⟩
  have h2 := h.2.2.2.2.2 0 entryA rfl
  simpa [entryA, sessionW] using h2
